import Mathlib

set_option maxHeartbeats 1000000

/-!
# Shallow embedding of `xT.js` (miniGun-js/xT)

`xT` is a publish/subscribe task dispatcher.  This file embeds its data
model (tasks, queues, instances) and its operations (`#on`, `#filter`,
`#sortTasksByPriority`, `#emit`, the static `on`/`emit`, the constructor
and the instance Proxy) as executable Lean definitions and proves the
frozen claims about them.

JavaScript values that the program actually manipulates are embedded in
the inductive `Val`; callbacks are defunctionalised into `Cb` (the
callbacks the repository itself defines, plus opaque test callbacks
`Cb.const` that return a fixed value).  Machine-level JS features that no
code path of the repository exercises with the claims' inputs (loose
`==` between a string and a non-string, floating point, prototype
lookups) are not modelled; topics are strings, as in every use in the
repository.
-/

namespace XT

/-- Errors of the embedded semantics.  `refErrRemoveTask` is the
`ReferenceError` raised by `xT.#emit` line 86: `removeTask(task)` names a
function that is defined nowhere in the repository. -/
inductive JsErr where
  | refErrRemoveTask : JsErr
  | typeError : JsErr
  | noFuel : JsErr

mutual

/-- Embedded JavaScript values: primitives, opaque objects (`obj id`),
arrays of tasks (`taskArr`, e.g. a filter's result), live references to
an instance's local queue (`queueRef name`, i.e. `this.queue`), task
records used as values (`taskVal`), functions (`cbVal`) and option
objects (`optsVal`). -/
inductive Val where
  | undefined : Val
  | null : Val
  | str : String → Val
  | int : Int → Val
  | bool : Bool → Val
  | obj : Nat → Val
  | taskArr : List Task → Val
  | queueRef : String → Val
  | taskVal : Task → Val
  | cbVal : Cb → Val
  | optsVal : Opts → Val

/-- A task record `{ topic, cb, sort, stop, once, ctx }` as built by
`xT.#on`.  A missing `ctx` field is `Val.undefined` (reading an absent JS
property yields `undefined`). -/
inductive Task where
  | mk : String → Cb → Int → Int → Int → Val → Task

/-- An options object passed to `on`: any subset of the keys
`topic, cb, sort, stop, once, ctx` (a missing key is `none`). -/
inductive Opts where
  | mk : Option String → Option Cb → Option Int → Option Int → Option Int → Option Val → Opts

/-- Defunctionalised callbacks: `const id ret` is an opaque test callback
returning `ret`; the others are the repository's own functions —
`xT.#filter`, and per instance `name` the built-ins
`() => this.queue`, `xT.#on.bind(null, this.queue)` and the instance
`emit` closure. -/
inductive Cb where
  | const : Nat → Val → Cb
  | filterDefault : Cb
  | instQueue : String → Cb
  | instOn : String → Cb
  | instEmit : String → Cb

end

namespace Task

def topic : Task → String
  | .mk t _ _ _ _ _ => t

def cb : Task → Cb
  | .mk _ c _ _ _ _ => c

def sort : Task → Int
  | .mk _ _ s _ _ _ => s

def stop : Task → Int
  | .mk _ _ _ s _ _ => s

def once : Task → Int
  | .mk _ _ _ _ o _ => o

def ctx : Task → Val
  | .mk _ _ _ _ _ c => c

end Task

namespace Opts

def topic : Opts → Option String
  | .mk t _ _ _ _ _ => t

def cb : Opts → Option Cb
  | .mk _ c _ _ _ _ => c

def sort : Opts → Option Int
  | .mk _ _ s _ _ _ => s

def stop : Opts → Option Int
  | .mk _ _ _ s _ _ => s

def once : Opts → Option Int
  | .mk _ _ _ _ o _ => o

def ctx : Opts → Option Val
  | .mk _ _ _ _ _ c => c

/-- The empty options object `{}` (the default of `xT.#on`). -/
def empty : Opts := .mk none none none none none none

end Opts

/-- JS truthiness on embedded values: `undefined`, `null`, `false`, `0`
and `""` are falsy; every object (including an empty array) is truthy. -/
def truthy : Val → Bool
  | .undefined => false
  | .null => false
  | .bool b => b
  | .int n => n != 0
  | .str s => s != ""
  | _ => true

/-- `v instanceof Object` for embedded values: true exactly for the
object-like constructors (arrays, functions and plain objects), false
for primitives, `null` and `undefined`. -/
def isObjectV : Val → Bool
  | .obj _ => true
  | .taskArr _ => true
  | .queueRef _ => true
  | .taskVal _ => true
  | .cbVal _ => true
  | .optsVal _ => true
  | _ => false

/-- `task.topic == topic` as used by `xT.#filter`.  Task topics are
strings; the comparison is string equality against a string argument and
false against `undefined`/`null` (the only non-string arguments any
claim exercises). -/
def topicMatches (t : Task) (v : Val) : Bool :=
  match v with
  | .str s => t.topic == s
  | _ => false

/-- `xT.#sortTasksByPriority` returns `-1` iff `taskA.sort < taskB.sort`
(and `1` otherwise). -/
def cmpLt (a b : Task) : Bool := a.sort < b.sort

/-- Insert a task into an already ordered list: it goes before the first
task with a strictly greater `sort` value (past any equal-`sort`
task). -/
def insertTask (t : Task) : List Task → List Task
  | [] => [t]
  | u :: us => if cmpLt t u then t :: u :: us else u :: insertTask t us

/-- `currentQueue.sort(xT.#sortTasksByPriority)`, an insertion sort by
ascending `sort` value.  The source comparator is inconsistent on ties
(it never returns 0), so ECMAScript leaves the order of equal-`sort`
tasks implementation-defined; this model fixes one deterministic choice
(head inserted into the sorted tail, landing after equal-`sort` later
registrations) and no claim relies on tie order.  For pairwise distinct
`sort` values the comparator is consistent and ECMAScript fixes the
result, which this insertion sort produces. -/
def sortTasks : List Task → List Task
  | [] => []
  | t :: ts => insertTask t (sortTasks ts)

/-- `{ topic, cb, sort: 0, stop: 0, once: 0, ...opts }` — the task
literal of `xT.#on`: the spread comes last, so any `topic`/`cb` (or
other) key of `opts` overrides the positional field. -/
def mkTask (topic : String) (cb : Cb) (o : Opts) : Task :=
  .mk (o.topic.getD topic) (o.cb.getD cb) (o.sort.getD 0) (o.stop.getD 0)
    (o.once.getD 0) (o.ctx.getD .undefined)

/-- Mutable storage: the core registry's queue (`xT.#queue`) and each
instance's local queue (`this.queue`, keyed by instance name). -/
structure St where
  core : List Task
  locals : List (String × List Task)

/-- `this.queue` of instance `name` (empty if the instance is unknown —
a constructed instance always has an entry). -/
def readQueue (st : St) (name : String) : List Task :=
  (st.locals.lookup name).getD []

/-- Replace the local queue of instance `name`. -/
def setLocal (st : St) (name : String) (q : List Task) : St :=
  ⟨st.core, st.locals.map (fun p => if p.1 == name then (p.1, q) else p)⟩

/-- One recorded callback invocation: the task, the `this` value the
callback received, and the call arguments. -/
structure Event where
  task : Task
  ctx : Val
  args : List Val

/-- Outcome of running embedded code: a value or a raised error, plus
the trace of callback invocations (in order) and the final storage. -/
inductive Res where
  | ok : Val → List Event → St → Res
  | err : JsErr → List Event → St → Res

namespace Res

def trace : Res → List Event
  | .ok _ tr _ => tr
  | .err _ tr _ => tr

def state : Res → St
  | .ok _ _ st => st
  | .err _ _ st => st

def retVal : Res → Option Val
  | .ok v _ _ => some v
  | .err _ _ _ => none

def isOk : Res → Bool
  | .ok _ _ _ => true
  | .err _ _ _ => false

end Res

/-- Prepend earlier events to a result's trace. -/
def appendTrace (tr : List Event) : Res → Res
  | .ok v tr2 st => .ok v (tr ++ tr2) st
  | .err e tr2 st => .err e (tr ++ tr2) st

/-- An argument value used as a task array: a materialised array, or a
live queue reference (read from storage). -/
def resolveArr (st : St) : Val → Option (List Task)
  | .taskArr ts => some ts
  | .queueRef q => some (readQueue st q)
  | _ => none

/-- `xT.#filter`: `filterQueue.filter(task => task.topic == topic)`. -/
def defaultFilter (ts : List Task) (v : Val) : List Task :=
  ts.filter (fun t => topicMatches t v)

/-- The tasks of the core queue matching a topic value (the
`xT.#filter(xT.#queue, topic)` step of the static `emit`). -/
def coreMatching (st : St) (v : Val) : List Task :=
  defaultFilter st.core v

/-- `args[0] instanceof Object ? args.shift() : null` followed by
`topic = args.shift()`: split an argument list into the optional context
(`Val.null` when absent), the topic value (`undefined` when the list is
exhausted) and the remaining call arguments. -/
def shiftCtx (argsIn : List Val) : Val × Val × List Val :=
  match argsIn with
  | [] => (.null, .undefined, [])
  | a :: rest =>
    if isObjectV a then
      match rest with
      | [] => (a, .undefined, [])
      | b :: rest2 => (a, b, rest2)
    else
      (.null, a, rest)

/-- `$<name>:<prop>`, the namespaced core topic of an instance feature. -/
def featTopic (name prop : String) : String :=
  "$" ++ name ++ ":" ++ prop

/-- `xT.#on`: build the task, push it onto the queue, return it. -/
def pushTask (q : List Task) (topic : String) (cb : Cb) (o : Opts) : Task × List Task :=
  let task := mkTask topic cb o
  (task, q ++ [task])

/-- The static `xT.on(topic, cb, opts)`: `xT.#on` on the core queue. -/
def xtOn (st : St) (topic : String) (cb : Cb) (o : Opts) : Task × St :=
  let r := pushTask st.core topic cb o
  (r.1, ⟨r.2, st.locals⟩)

/-- The instance built-in `on` (`xT.#on.bind(null, this.queue)`) called
with embedded arguments: `(topic, cb)` or `(topic, cb, opts)`. -/
def instOnRun (st : St) (name : String) (args : List Val) : Res :=
  match args with
  | [.str topic, .cbVal c] =>
    let r := pushTask (readQueue st name) topic c Opts.empty
    .ok (.taskVal r.1) [] (setLocal st name r.2)
  | [.str topic, .cbVal c, .optsVal o] =>
    let r := pushTask (readQueue st name) topic c o
    .ok (.taskVal r.1) [] (setLocal st name r.2)
  | _ => .err .typeError [] st

/-- Line 82: `ctx = ctx ? ctx : task.ctx ? task.ctx : task`. -/
def resolveCtx (ctx : Val) (t : Task) : Val :=
  if truthy ctx then ctx else if truthy t.ctx then t.ctx else .taskVal t

/-- The `xT.#emit` loop over an already-sorted task list.  `call` runs a
callback (it is instantiated with `callCb fuel`).  Faithful to lines
80–92 of `xT.js`: the `ctx` variable is *reassigned* to the resolved
context, so the resolution of the first task persists for later tasks;
a truthy `once` reaches `removeTask(task)`, which is undefined and
raises a `ReferenceError`; a truthy `stop` breaks after the task. -/
def emitGoF (call : St → Cb → Val → List Val → Res) :
    St → List Task → List Val → Val → Val → Res
  | st, [], _, _, acc => .ok acc [] st
  | st, t :: rest, args, ctx, acc =>
    let c := resolveCtx ctx t
    let callThis := if truthy c then c else t.ctx
    match call st t.cb callThis args with
    | .err e tr st1 => .err e (⟨t, callThis, args⟩ :: tr) st1
    | .ok r tr st1 =>
      let acc2 := if truthy r then r else acc
      if t.once != 0 then .err .refErrRemoveTask (⟨t, callThis, args⟩ :: tr) st1
      else if t.stop != 0 then .ok acc2 (⟨t, callThis, args⟩ :: tr) st1
      else appendTrace (⟨t, callThis, args⟩ :: tr) (emitGoF call st1 rest args c acc2)

/-- `xT.#emit(currentQueue, args, ctx)`: sort the queue by priority and
run the loop with `taskReturn` starting as `undefined`. -/
def emitListF (call : St → Cb → Val → List Val → Res) (st : St) (ts : List Task)
    (args : List Val) (ctx : Val) : Res :=
  emitGoF call st (sortTasks ts) args ctx .undefined

/-- The static `xT.emit(...args)`: shift off an optional object context
and the topic, filter the core queue with `xT.#filter`, and run
`xT.#emit` on the result. -/
def coreEmitF (call : St → Cb → Val → List Val → Res) (st : St) (argsIn : List Val) : Res :=
  let s := shiftCtx argsIn
  emitListF call st (coreMatching st s.2.1) s.2.2 s.1

/-- The instance `emit` closure (lines 148–155): shift off an optional
object context and the topic, obtain the filtered queue by emitting
`$<name>:filter` on the core with `(this.queue, topic)`, then run
`xT.#emit` directly over that queue with the remaining arguments.  A
non-array filtered queue would make `currentQueue.sort` throw a
`TypeError`.  (A filter hook returning the live `this.queue` reference
is read from storage; the in-place reordering `sort` would then apply to
the live array is not modelled — no claim exercises such a hook.) -/
def instEmitRunF (call : St → Cb → Val → List Val → Res) (st : St) (name : String)
    (argsIn : List Val) : Res :=
  let s := shiftCtx argsIn
  match coreEmitF call st [.str (featTopic name "filter"), .queueRef name, s.2.1] with
  | .err e tr st1 => .err e tr st1
  | .ok v tr st1 =>
    match resolveArr st1 v with
    | some ts => appendTrace tr (emitListF call st1 ts s.2.2 s.1)
    | none => .err .typeError tr st1

/-- Run a callback.  `fuel` bounds the nesting depth of instance `emit`
calls (the only re-entrant callback the repository defines); every other
callback is non-recursive and ignores fuel.  `_thisv` is the received
`this`: every repository-defined callback is an arrow function or a
`this`-free bound function, so it is unused. -/
def callCb (fuel : Nat) (st : St) (c : Cb) (_thisv : Val) (args : List Val) : Res :=
  match c with
  | .const _ r => .ok r [] st
  | .filterDefault =>
    match resolveArr st (args.getD 0 .undefined) with
    | some ts => .ok (.taskArr (defaultFilter ts (args.getD 1 .undefined))) [] st
    | none => .err .typeError [] st
  | .instQueue name => .ok (.queueRef name) [] st
  | .instOn name => instOnRun st name args
  | .instEmit name =>
    match fuel with
    | 0 => .err .noFuel [] st
    | f + 1 => instEmitRunF (callCb f) st name args

/-- `xT.#emit`'s loop with callbacks run at the given fuel. -/
def emitGo (fuel : Nat) : St → List Task → List Val → Val → Val → Res :=
  emitGoF (callCb fuel)

/-- `xT.#emit` with callbacks run at the given fuel. -/
def emitList (fuel : Nat) (st : St) (ts : List Task) (args : List Val) (ctx : Val) : Res :=
  emitListF (callCb fuel) st ts args ctx

/-- The static `xT.emit` with callbacks run at the given fuel. -/
def coreEmit (fuel : Nat) (st : St) (argsIn : List Val) : Res :=
  coreEmitF (callCb fuel) st argsIn

/-- The instance `emit` closure with callbacks run at the given fuel. -/
def instEmitRun (fuel : Nat) (st : St) (name : String) (argsIn : List Val) : Res :=
  instEmitRunF (callCb fuel) st name argsIn

/-- A constructed instance: its name and its effective feature table
(the target object of the Proxy). -/
structure Inst where
  name : String
  features : List (String × Cb)

/-- The whole program state: storage, the `xT.#instances` registry and
the `console.log` output. -/
structure Sys where
  st : St
  insts : List (String × Inst)
  log : List String

/-- Setting a key of a JS object literal: overwrite the value in place
if the key exists (keeping its position), else append the key.  (A JS
object's keys are unique, so at most one entry matches.) -/
def upsert : List (String × Cb) → String → Cb → List (String × Cb)
  | [], k, v => [(k, v)]
  | p :: ps, k, v => if p.1 == k then (k, v) :: ps else p :: upsert ps k v

/-- The effective feature table of lines 143–156:
`{filter: xT.#filter, ...features, queue: …, on: …, emit: …}` — the
supplied features are spread over the default `filter`, then the
built-ins `queue`, `on`, `emit` are written last. -/
def buildFeatures (name : String) (supplied : List (String × Cb)) : List (String × Cb) :=
  let m0 : List (String × Cb) := [("filter", .filterDefault)]
  let m1 := supplied.foldl (fun m p => upsert m p.1 p.2) m0
  let m2 := upsert m1 "queue" (.instQueue name)
  let m3 := upsert m2 "on" (.instOn name)
  upsert m3 "emit" (.instEmit name)

/-- `Object.entries(features).forEach(([prop, action]) => xT.on(`$name:prop`, action))`:
append one core task per feature, in table order, with default options. -/
def registerFeatures (st : St) (name : String) (feats : List (String × Cb)) : St :=
  ⟨st.core ++ feats.map (fun p => mkTask (featTopic name p.1) p.2 Opts.empty), st.locals⟩

/-- The constructor `new xT(name, features)`: if the name is registered,
log a notice and return the existing instance untouched; otherwise build
the feature table, register every feature as a core task, create the
empty local queue, store and return the new instance. -/
def construct (sys : Sys) (name : String) (supplied : List (String × Cb)) : Inst × Sys :=
  match sys.insts.lookup name with
  | some inst => (inst, ⟨sys.st, sys.insts, sys.log ++ ["Return existing instance"]⟩)
  | none =>
    let feats := buildFeatures name supplied
    let st1 := registerFeatures sys.st name feats
    let inst : Inst := ⟨name, feats⟩
    (inst, ⟨⟨st1.core, st1.locals ++ [(name, [])]⟩, sys.insts ++ [(name, inst)], sys.log⟩)

/-- What a property access on the instance Proxy returns: a function
that calls the static `xT.emit` with a pre-supplied first argument. -/
inductive Invoker where
  | coreTopic : String → Invoker

/-- The Proxy `get` trap (lines 162–168).  For a declared feature name it
returns `xT.emit.bind(null, `$name:prop`)`.  For any other property it
evaluates `xT.#instances[name].emit.bind(prop)`: the `.emit` access
re-enters this very trap at the declared key `"emit"`, yielding the
already-bound `xT.emit.bind(null, `$name:emit`)`, and the outer
`.bind(prop)` only sets the (already fixed) `this` argument — `prop` is
discarded and no argument is pre-supplied. -/
def proxyGet (inst : Inst) (prop : String) : Invoker :=
  if inst.features.any (fun p => p.1 == prop) then .coreTopic (featTopic inst.name prop)
  else .coreTopic (featTopic inst.name "emit")

/-- Call the function returned by the Proxy `get` trap. -/
def callInvoker (fuel : Nat) (st : St) (inv : Invoker) (args : List Val) : Res :=
  match inv with
  | .coreTopic topic => coreEmit fuel st (.str topic :: args)

/-- The return value of an opaque test callback (`undefined` for the
repository's own callbacks; used only to state claims about queues of
test callbacks). -/
def Cb.retD : Cb → Val
  | .const _ r => r
  | _ => .undefined

/-- Is this an opaque test callback (state-independent, returns
`Cb.retD`)? -/
def Cb.isConst : Cb → Bool
  | .const _ _ => true
  | _ => false

/-- The prefix of a sorted task list that `xT.#emit`'s loop reaches: it
is cut short after the first task with a truthy `once` (which raises
the `removeTask` `ReferenceError`) or a truthy `stop` (which breaks). -/
def upToHalt : List Task → List Task
  | [] => []
  | t :: rest => if t.once != 0 || t.stop != 0 then [t] else t :: upToHalt rest

/-- Does the loop end in the `removeTask` `ReferenceError`?  True iff
the task it halts at has a truthy `once`. -/
def haltsErr (ts : List Task) : Bool :=
  (upToHalt ts).any (fun t => t.once != 0)

/-- `taskReturn` after folding the executed tasks' return values: a
truthy result overwrites, a falsy one is ignored. -/
def lastTruthy (acc : Val) (ts : List Task) : Val :=
  ts.foldl (fun a t => if truthy t.cb.retD then t.cb.retD else a) acc

/-- The single context every task of one emit receives: the initial
context if truthy, otherwise the first task's resolution (`resolveCtx`
always yields a truthy value, so the reassigned `ctx` never changes
again). -/
def stickyCtx (ctx : Val) : List Task → Val
  | [] => ctx
  | t :: _ => resolveCtx ctx t

/-- The event trace of a run over test callbacks: each task paired with
the context it received, the context evolving by `resolveCtx`. -/
def traceOf (args : List Val) : Val → List Task → List Event
  | _, [] => []
  | ctx, t :: rest =>
    let c := resolveCtx ctx t
    ⟨t, c, args⟩ :: traceOf args c rest

/-! ## Concrete inputs used by the claims -/

/-- The registered task of the spec scenario
`on('once-task', cb, {once:1})`. -/
def onceTask : Task :=
  mkTask "once-task" (.const 0 (.str "ran")) (.mk none none none none (some 1) none)

/-- Core state holding only `onceTask`. -/
def stC1 : St := ⟨[onceTask], []⟩

/-- A `once:1` task whose callback returns a falsy value. -/
def onceFalsyTask : Task :=
  mkTask "t" (.const 0 .undefined) (.mk none none none none (some 1) none)

/-- Core state holding only `onceFalsyTask`. -/
def stC5 : St := ⟨[onceFalsyTask], []⟩

/-- First task of the context example: no bound `ctx`. -/
def c2t1 : Task := mkTask "t" (.const 0 .undefined) Opts.empty

/-- Second task of the context example: bound `ctx` the object `obj 7`,
`sort` 1 so it runs second. -/
def c2t2 : Task :=
  mkTask "t" (.const 1 .undefined) (.mk none none (some 1) none none (some (.obj 7)))

/-- Core state holding the two context-example tasks. -/
def stC2 : St := ⟨[c2t1, c2t2], []⟩

/-- A task with `stop:1` and `once:1`. -/
def stopOnceTask : Task :=
  mkTask "t" (.const 0 (.str "a")) (.mk none none none (some 1) (some 1) none)

/-- A later task (`sort` 1) behind `stopOnceTask`. -/
def afterStopTask : Task :=
  mkTask "t" (.const 1 (.str "b")) (.mk none none (some 1) none none none)

/-- Core state holding `stopOnceTask` and `afterStopTask`. -/
def stC7 : St := ⟨[stopOnceTask, afterStopTask], []⟩

/-- The scenario tasks `on('t', cb1, {sort:-1})`, `on('t', cb2,
{sort:1, stop:1})`, `on('t', cb3, {sort:2})`. -/
def cb1Task : Task := mkTask "t" (.const 1 (.str "r1")) (.mk none none (some (-1)) none none none)

def cb2Task : Task := mkTask "t" (.const 2 (.str "r2")) (.mk none none (some 1) (some 1) none none)

def cb3Task : Task := mkTask "t" (.const 3 (.str "r3")) (.mk none none (some 2) none none none)

/-- Core state after the three scenario `on` calls. -/
def stC7w : St := ⟨[cb1Task, cb2Task, cb3Task], []⟩

/-- The empty program state. -/
def sysEmpty : Sys := ⟨⟨[], []⟩, [], []⟩

/-- The instance of `new xT('u', {})` on the empty state. -/
def uInst : Inst := (construct sysEmpty "u" []).1

/-- The program state after `new xT('u', {})`. -/
def sysU : Sys := (construct sysEmpty "u" []).2

/-- A local task of instance `u` on topic `x`. -/
def hitTask : Task := mkTask "x" (.const 1 (.str "hit")) Opts.empty

/-- `sysU`'s storage with `hitTask` placed in `u`'s local queue. -/
def stU : St := setLocal sysU.st "u" [hitTask]

/-- Local tasks of instance `u` for the `u.emit('topic',1,2)` scenario:
two on topic `topic`, one on another topic. -/
def uTopicTask1 : Task := mkTask "topic" (.const 1 (.str "r1")) Opts.empty

def uTopicTask2 : Task := mkTask "topic" (.const 2 .undefined) (.mk none none (some 1) none none none)

def uOtherTask : Task := mkTask "other" (.const 3 (.str "r3")) Opts.empty

/-- `sysU`'s storage with the three scenario tasks in `u`'s local
queue. -/
def stU4 : St := setLocal sysU.st "u" [uTopicTask1, uTopicTask2, uOtherTask]

/-- The core task registered for feature `filter` of instance `name`. -/
def filterFeatureTask (name : String) : Task :=
  mkTask (featTopic name "filter") .filterDefault Opts.empty

/-- The invocation of the default filter task that an instance `emit`
performs: it receives `(this.queue, topic)` and (having no other
context) its own task record as `this`. -/
def filterFeatureEvent (name topic : String) : Event :=
  ⟨filterFeatureTask name, .taskVal (filterFeatureTask name), [.queueRef name, .str topic]⟩

/-- The options object `{sort: s}`. -/
def sortOpts (s : Int) : Opts := .mk none none (some s) none none none

/-- The task appended by `on(topic, cb, {sort: s})`. -/
def regTask (topic : String) (p : Cb × Int) : Task := mkTask topic p.1 (sortOpts p.2)

/-- Perform a sequence of `on(topic, cbᵢ, {sort: sᵢ})` calls. -/
def regAll (st : St) (topic : String) (regs : List (Cb × Int)) : St :=
  regs.foldl (fun s p => (xtOn s topic p.1 (sortOpts p.2)).2) st

/-- The options object `{topic: 'b'}` of claim C10's example. -/
def onBOpts : Opts := .mk (some "b") none none none none none

/-- Core state after `on('a', f, {topic:'b'})` on an empty registry. -/
def stC10 : St := (xtOn ⟨[], []⟩ "a" (.const 0 (.str "ran")) onBOpts).2

/-- Three tasks on topic `w` whose callbacks return `undefined`, the
truthy string `x`, and the falsy number `0`, in that execution order. -/
def w5t1 : Task := mkTask "w" (.const 0 .undefined) Opts.empty

def w5t2 : Task := mkTask "w" (.const 1 (.str "x")) (.mk none none (some 1) none none none)

def w5t3 : Task := mkTask "w" (.const 2 (.int 0)) (.mk none none (some 2) none none none)

/-- Core state holding the three return-value example tasks. -/
def stC5w : St := ⟨[w5t1, w5t2, w5t3], []⟩

/-- An empty storage. -/
def stEmptyS : St := ⟨[], []⟩

/-- Three `on` registrations for one topic with pairwise distinct
`sort` values 5, -3 and 1. -/
def regs6 : List (Cb × Int) :=
  [(.const 1 (.str "a"), 5), (.const 2 (.str "b"), -3), (.const 3 (.str "c"), 1)]

/-- A feature table passed on a repeated construction (it must be
ignored). -/
def f8b : List (String × Cb) := [("filter", .const 9 .undefined)]

/-- A supplied feature table that overrides `filter` and also tries to
override the built-in `queue`. -/
def s9 : List (String × Cb) :=
  [("filter", .const 3 .undefined), ("extra", .const 4 .undefined), ("queue", .const 5 .undefined)]

/-- A `stop:1` task on topic `v` returning the truthy string `a`. -/
def w5stop : Task := mkTask "v" (.const 3 (.str "a")) (.mk none none none (some 1) none none)

/-- A `once:1` task on topic `v` sorted after `w5stop`, so it matches
the topic but is never executed (the stop task halts first). -/
def w5shadowedOnce : Task :=
  mkTask "v" (.const 4 (.str "b")) (.mk none none (some 1) none (some 1) none)

/-- Core state where a `once` task is shadowed behind a `stop` task. -/
def stC5w2 : St := ⟨[w5stop, w5shadowedOnce], []⟩

/-- The options object `{cb: g}` of claim C10's callback half. -/
def cbOpts : Opts := .mk none (some (.const 8 (.str "g-ran"))) none none none none

/-- Core state after `on('a', f, {cb: g})` on an empty registry. -/
def stC10b : St := (xtOn ⟨[], []⟩ "a" (.const 0 (.str "f-ran")) cbOpts).2

/-! ## Helper lemmas -/

theorem resolveCtx_truthy (ctx : Val) (t : Task) : truthy (resolveCtx ctx t) = true := by
  unfold resolveCtx
  split
  · assumption
  · split
    · assumption
    · rfl

theorem resolveCtx_of_truthy (ctx : Val) (t : Task) (h : truthy ctx = true) :
    resolveCtx ctx t = ctx := by
  unfold resolveCtx
  simp [h]

theorem callCb_isConst (fuel : Nat) (st : St) (c : Cb) (thisv : Val) (args : List Val)
    (h : c.isConst = true) : callCb fuel st c thisv args = .ok c.retD [] st := by
  cases c with
  | const i r =>
    cases fuel with
    | zero => rfl
    | succ f => rfl
  | filterDefault => simp [Cb.isConst] at h
  | instQueue n => simp [Cb.isConst] at h
  | instOn n => simp [Cb.isConst] at h
  | instEmit n => simp [Cb.isConst] at h

theorem traceOf_tasks (args : List Val) : ∀ (l : List Task) (ctx : Val),
    (traceOf args ctx l).map Event.task = l := by
  intro l
  induction l with
  | nil => intro ctx; rfl
  | cons t rest ih => intro ctx; simp [traceOf, ih]

theorem traceOf_length (args : List Val) : ∀ (l : List Task) (ctx : Val),
    (traceOf args ctx l).length = l.length := by
  intro l
  induction l with
  | nil => intro ctx; rfl
  | cons t rest ih => intro ctx; simp [traceOf, ih]

theorem traceOf_ctx_of_truthy (args : List Val) :
    ∀ (l : List Task) (ctx : Val), truthy ctx = true →
    (traceOf args ctx l).map Event.ctx = List.replicate l.length ctx := by
  intro l
  induction l with
  | nil => intro ctx _; rfl
  | cons t rest ih =>
    intro ctx h
    simp [traceOf, resolveCtx_of_truthy ctx t h, ih ctx h, List.replicate_succ]

theorem traceOf_ctx_sticky (args : List Val) (ctx : Val) (l : List Task) :
    (traceOf args ctx l).map Event.ctx = List.replicate l.length (stickyCtx ctx l) := by
  cases l with
  | nil => rfl
  | cons t rest =>
    simp [traceOf, stickyCtx, List.replicate_succ,
      traceOf_ctx_of_truthy args rest (resolveCtx ctx t) (resolveCtx_truthy ctx t)]

theorem upToHalt_of_clean : ∀ (l : List Task),
    (∀ t ∈ l, t.once = 0 ∧ t.stop = 0) → upToHalt l = l := by
  intro l
  induction l with
  | nil => intro _; rfl
  | cons t rest ih =>
    intro h
    have ht := h t (List.mem_cons_self t rest)
    simp [upToHalt, ht.1, ht.2, ih (fun u hu => h u (List.mem_cons_of_mem t hu))]

theorem upToHalt_mem : ∀ (l : List Task) (t : Task), t ∈ upToHalt l → t ∈ l := by
  intro l
  induction l with
  | nil => intro t ht; exact absurd ht (List.not_mem_nil t)
  | cons u rest ih =>
    intro t ht
    unfold upToHalt at ht
    split at ht
    · rcases List.mem_singleton.mp ht with rfl
      exact List.mem_cons_self t rest
    · rcases List.mem_cons.mp ht with rfl | h2
      · exact List.mem_cons_self t rest
      · exact List.mem_cons_of_mem u (ih t h2)

theorem haltsErr_of_no_once (l : List Task) (h : ∀ t ∈ l, t.once = 0) :
    haltsErr l = false := by
  unfold haltsErr
  rw [List.any_eq_false]
  intro t ht
  simp [h t (upToHalt_mem l t ht)]

theorem upToHalt_split (tstop : Task) (post : List Task)
    (hstop : (tstop.once != 0 || tstop.stop != 0) = true) :
    ∀ (pre : List Task), (∀ t ∈ pre, t.once = 0 ∧ t.stop = 0) →
    upToHalt (pre ++ tstop :: post) = pre ++ [tstop] := by
  intro pre
  induction pre with
  | nil => intro _; simp [upToHalt, hstop]
  | cons u us ih =>
    intro h
    have hu := h u (List.mem_cons_self u us)
    simp only [List.cons_append, upToHalt, hu.1, hu.2]
    simp [ih (fun t ht => h t (List.mem_cons_of_mem u ht))]

theorem stickyCtx_upToHalt (ctx : Val) (l : List Task) :
    stickyCtx ctx (upToHalt l) = stickyCtx ctx l := by
  cases l with
  | nil => rfl
  | cons t rest =>
    unfold upToHalt
    split
    · rfl
    · rfl

theorem insertTask_perm (t : Task) : ∀ (l : List Task), List.Perm (insertTask t l) (t :: l) := by
  intro l
  induction l with
  | nil => exact List.Perm.refl _
  | cons u us ih =>
    unfold insertTask
    split
    · exact List.Perm.refl _
    · exact List.Perm.trans (ih.cons u) (List.Perm.swap t u us)

theorem sortTasks_perm : ∀ (l : List Task), List.Perm (sortTasks l) l := by
  intro l
  induction l with
  | nil => exact List.Perm.refl _
  | cons t ts ih => exact List.Perm.trans (insertTask_perm t (sortTasks ts)) (ih.cons t)

theorem insertTask_sorted (t : Task) : ∀ (l : List Task),
    l.Pairwise (fun a b => a.sort ≤ b.sort) →
    (insertTask t l).Pairwise (fun a b => a.sort ≤ b.sort) := by
  intro l
  induction l with
  | nil => intro _; simp [insertTask]
  | cons u us ih =>
    intro h
    rw [List.pairwise_cons] at h
    unfold insertTask
    split
    next hlt =>
      have hle : t.sort ≤ u.sort := le_of_lt (by simpa [cmpLt] using hlt)
      refine List.Pairwise.cons ?_ (List.Pairwise.cons h.1 h.2)
      intro b hb
      rcases List.mem_cons.mp hb with rfl | hb2
      · exact hle
      · exact le_trans hle (h.1 b hb2)
    next hge =>
      have hle : u.sort ≤ t.sort := le_of_not_lt (by simpa [cmpLt] using hge)
      refine List.Pairwise.cons ?_ (ih h.2)
      intro b hb
      rcases List.mem_cons.mp ((insertTask_perm t us).mem_iff.mp hb) with rfl | hb2
      · exact hle
      · exact h.1 b hb2

theorem sortTasks_sorted : ∀ (l : List Task),
    (sortTasks l).Pairwise (fun a b => a.sort ≤ b.sort) := by
  intro l
  induction l with
  | nil => simp [sortTasks]
  | cons t ts ih => exact insertTask_sorted t (sortTasks ts) ih

theorem pairwise_lt_of_nodup (l : List Task)
    (hp : l.Pairwise (fun a b => a.sort ≤ b.sort))
    (hn : (l.map Task.sort).Nodup) :
    l.Pairwise (fun a b => a.sort < b.sort) := by
  rw [List.Nodup, List.pairwise_map] at hn
  exact (hp.and hn).imp (fun h => lt_of_le_of_ne h.1 h.2)

theorem lastTruthy_cons (acc : Val) (t : Task) (l : List Task) :
    lastTruthy acc (t :: l) = lastTruthy (if truthy t.cb.retD then t.cb.retD else acc) l := rfl

theorem traceOf_cons (args : List Val) (ctx : Val) (t : Task) (l : List Task) :
    traceOf args ctx (t :: l) = ⟨t, resolveCtx ctx t, args⟩ :: traceOf args (resolveCtx ctx t) l := rfl

theorem upToHalt_cons_halt (t : Task) (rest : List Task)
    (h : (t.once != 0 || t.stop != 0) = true) : upToHalt (t :: rest) = [t] := by
  simp [upToHalt, h]

theorem upToHalt_cons_clean (t : Task) (rest : List Task)
    (ho : (t.once != 0) = false) (hs : (t.stop != 0) = false) :
    upToHalt (t :: rest) = t :: upToHalt rest := by
  simp [upToHalt, ho, hs]

theorem haltsErr_cons_halt (t : Task) (rest : List Task) (ho : (t.once != 0) = true) :
    haltsErr (t :: rest) = true := by
  simp [haltsErr, upToHalt_cons_halt t rest (by simp [ho]), ho]

theorem haltsErr_cons_stop (t : Task) (rest : List Task)
    (ho : (t.once != 0) = false) (hs : (t.stop != 0) = true) :
    haltsErr (t :: rest) = false := by
  simp [haltsErr, upToHalt_cons_halt t rest (by simp [hs]), ho]

theorem haltsErr_cons_clean (t : Task) (rest : List Task)
    (ho : (t.once != 0) = false) (hs : (t.stop != 0) = false) :
    haltsErr (t :: rest) = haltsErr rest := by
  simp [haltsErr, upToHalt_cons_clean t rest ho hs, ho]

theorem emitGoF_const_run (call : St → Cb → Val → List Val → Res)
    (hcall : ∀ (st : St) (c : Cb) (thisv : Val) (args : List Val),
      c.isConst = true → call st c thisv args = .ok c.retD [] st) :
    ∀ (ts : List Task) (st : St) (args : List Val) (ctx acc : Val),
      (∀ t ∈ ts, t.cb.isConst = true) →
      emitGoF call st ts args ctx acc =
        if haltsErr ts then
          .err .refErrRemoveTask (traceOf args ctx (upToHalt ts)) st
        else
          .ok (lastTruthy acc (upToHalt ts)) (traceOf args ctx (upToHalt ts)) st := by
  intro ts
  induction ts with
  | nil =>
    intro st args ctx acc _
    simp [emitGoF, haltsErr, upToHalt, lastTruthy, traceOf]
  | cons t rest ih =>
    intro st args ctx acc h
    have hc : t.cb.isConst = true := h t (List.mem_cons_self t rest)
    have hrest : ∀ u ∈ rest, u.cb.isConst = true := fun u hu => h u (List.mem_cons_of_mem t hu)
    have htr : truthy (resolveCtx ctx t) = true := resolveCtx_truthy ctx t
    simp only [emitGoF, htr, if_true]
    rw [hcall st t.cb (resolveCtx ctx t) args hc]
    cases ho : (t.once != 0) with
    | true =>
      simp [ho, haltsErr_cons_halt t rest ho, upToHalt_cons_halt t rest (by simp [ho]),
        traceOf]
    | false =>
      cases hs : (t.stop != 0) with
      | true =>
        simp [ho, hs, haltsErr_cons_stop t rest ho hs,
          upToHalt_cons_halt t rest (by simp [hs]), traceOf, lastTruthy_cons, lastTruthy]
      | false =>
        have ih2 := ih st args (resolveCtx ctx t) (if truthy t.cb.retD then t.cb.retD else acc) hrest
        cases hh : haltsErr rest with
        | true =>
          simp [ho, hs, hh, ih2, haltsErr_cons_clean t rest ho hs,
            upToHalt_cons_clean t rest ho hs, traceOf_cons, appendTrace]
        | false =>
          simp [ho, hs, hh, ih2, haltsErr_cons_clean t rest ho hs,
            upToHalt_cons_clean t rest ho hs, traceOf_cons, appendTrace, lastTruthy_cons]

theorem emitList_const (fuel : Nat) (st : St) (ts : List Task) (args : List Val) (ctx : Val)
    (h : ∀ t ∈ ts, t.cb.isConst = true) :
    emitList fuel st ts args ctx =
      if haltsErr (sortTasks ts) then
        .err .refErrRemoveTask (traceOf args ctx (upToHalt (sortTasks ts))) st
      else
        .ok (lastTruthy .undefined (upToHalt (sortTasks ts)))
          (traceOf args ctx (upToHalt (sortTasks ts))) st := by
  have hs : ∀ t ∈ sortTasks ts, t.cb.isConst = true :=
    fun t ht => h t ((sortTasks_perm ts).mem_iff.mp ht)
  exact emitGoF_const_run (callCb fuel)
    (fun st2 c th a hc => callCb_isConst fuel st2 c th a hc)
    (sortTasks ts) st args ctx .undefined hs

theorem coreEmit_str (fuel : Nat) (st : St) (topic : String)
    (h : ∀ t ∈ coreMatching st (.str topic), t.cb.isConst = true) :
    coreEmit fuel st [.str topic] =
      if haltsErr (sortTasks (coreMatching st (.str topic))) then
        .err .refErrRemoveTask
          (traceOf [] .null (upToHalt (sortTasks (coreMatching st (.str topic))))) st
      else
        .ok (lastTruthy .undefined (upToHalt (sortTasks (coreMatching st (.str topic)))))
          (traceOf [] .null (upToHalt (sortTasks (coreMatching st (.str topic))))) st :=
  emitList_const fuel st (coreMatching st (.str topic)) [] .null h

theorem lookup_append_of_none {β : Type} (k : String) (v : β) :
    ∀ (l : List (String × β)), l.lookup k = none →
    (l ++ [(k, v)]).lookup k = some v := by
  intro l
  induction l with
  | nil => intro _; simp [List.lookup]
  | cons p ps ih =>
    intro h
    cases hk : (k == p.1) with
    | true => simp [List.lookup, hk] at h
    | false =>
      simp only [List.lookup, hk] at h
      rw [List.cons_append, List.lookup, hk]
      exact ih h

theorem lookup_upsert_self (k : String) (v : Cb) :
    ∀ (m : List (String × Cb)), (upsert m k v).lookup k = some v := by
  intro m
  induction m with
  | nil => simp [upsert, List.lookup]
  | cons p ps ih =>
    unfold upsert
    cases hk : (p.1 == k) with
    | true => simp [List.lookup]
    | false =>
      have hk2 : (k == p.1) = false := by
        rw [beq_eq_false_iff_ne] at hk ⊢
        exact fun h => hk h.symm
      simp [List.lookup, hk2, ih]

theorem lookup_upsert_ne (k k2 : String) (v : Cb) (hne : k2 ≠ k) :
    ∀ (m : List (String × Cb)), (upsert m k v).lookup k2 = m.lookup k2 := by
  intro m
  induction m with
  | nil => simp [upsert, List.lookup, beq_eq_false_iff_ne.mpr hne]
  | cons p ps ih =>
    unfold upsert
    cases hk : (p.1 == k) with
    | true =>
      have hpk : p.1 = k := by rwa [beq_iff_eq] at hk
      simp [List.lookup, hpk, beq_eq_false_iff_ne.mpr hne]
    | false =>
      cases hk2 : (k2 == p.1) with
      | true => simp [List.lookup, hk2]
      | false => simp [List.lookup, hk2, ih]

theorem lookup_none_of_not_mem {β : Type} (k : String) :
    ∀ (l : List (String × β)), k ∉ l.map Prod.fst → l.lookup k = none := by
  intro l
  induction l with
  | nil => intro _; rfl
  | cons p ps ih =>
    intro h
    rw [List.map_cons, List.mem_cons] at h
    push_neg at h
    simp [List.lookup, beq_eq_false_iff_ne.mpr h.1, ih h.2]

theorem lookup_foldl_upsert_of_none (k : String) :
    ∀ (s : List (String × Cb)) (base : List (String × Cb)), s.lookup k = none →
    ((s.foldl (fun m p => upsert m p.1 p.2) base).lookup k) = base.lookup k := by
  intro s
  induction s with
  | nil => intro base _; rfl
  | cons p ps ih =>
    intro base h
    cases hk : (k == p.1) with
    | true => simp [List.lookup, hk] at h
    | false =>
      simp only [List.lookup, hk] at h
      have hne : k ≠ p.1 := by rwa [beq_eq_false_iff_ne] at hk
      calc ((p :: ps).foldl (fun m q => upsert m q.1 q.2) base).lookup k
          = (ps.foldl (fun m q => upsert m q.1 q.2) (upsert base p.1 p.2)).lookup k := rfl
        _ = (upsert base p.1 p.2).lookup k := ih (upsert base p.1 p.2) h
        _ = base.lookup k := lookup_upsert_ne p.1 k p.2 hne base

theorem lookup_foldl_upsert_of_some (k : String) (v : Cb) :
    ∀ (s : List (String × Cb)) (base : List (String × Cb)),
    (s.map Prod.fst).Nodup → s.lookup k = some v →
    ((s.foldl (fun m p => upsert m p.1 p.2) base).lookup k) = some v := by
  intro s
  induction s with
  | nil => intro base _ h; simp [List.lookup] at h
  | cons p ps ih =>
    intro base hnd h
    rw [List.map_cons, List.nodup_cons] at hnd
    cases hk : (k == p.1) with
    | true =>
      have hkp : k = p.1 := by rwa [beq_iff_eq] at hk
      simp only [List.lookup, hk] at h
      have hnone : ps.lookup k = none := by
        apply lookup_none_of_not_mem
        rw [hkp]
        exact hnd.1
      calc ((p :: ps).foldl (fun m q => upsert m q.1 q.2) base).lookup k
          = (ps.foldl (fun m q => upsert m q.1 q.2) (upsert base p.1 p.2)).lookup k := rfl
        _ = (upsert base p.1 p.2).lookup k := lookup_foldl_upsert_of_none k ps _ hnone
        _ = some v := by rw [hkp]; rw [lookup_upsert_self p.1 p.2 base]; exact h
    | false =>
      simp only [List.lookup, hk] at h
      exact ih (upsert base p.1 p.2) hnd.2 h

theorem regAll_core (topic : String) :
    ∀ (regs : List (Cb × Int)) (st : St),
    (regAll st topic regs).core = st.core ++ regs.map (regTask topic)
    ∧ (regAll st topic regs).locals = st.locals := by
  intro regs
  induction regs with
  | nil => intro st; simp [regAll]
  | cons p ps ih =>
    intro st
    have h2 := ih ((xtOn st topic p.1 (sortOpts p.2)).2)
    have hstep : regAll st topic (p :: ps) = regAll ((xtOn st topic p.1 (sortOpts p.2)).2) topic ps := rfl
    constructor
    · rw [hstep, h2.1]
      simp [xtOn, pushTask, regTask, List.append_assoc]
    · rw [hstep, h2.2]
      simp [xtOn, pushTask]

theorem regTask_matches (topic : String) (p : Cb × Int) :
    topicMatches (regTask topic p) (.str topic) = true := by
  simp [topicMatches, regTask, mkTask, Task.topic, sortOpts, Opts.topic]

theorem coreMatching_regAll (st : St) (topic : String) (regs : List (Cb × Int))
    (h0 : coreMatching st (.str topic) = []) :
    coreMatching (regAll st topic regs) (.str topic) = regs.map (regTask topic) := by
  unfold coreMatching defaultFilter at h0 ⊢
  rw [(regAll_core topic regs st).1, List.filter_append, h0, List.nil_append]
  apply List.filter_eq_self.mpr
  intro t ht
  rcases List.mem_map.mp ht with ⟨p, _, rfl⟩
  exact regTask_matches topic p

theorem regTask_sort_map (topic : String) (regs : List (Cb × Int)) :
    (regs.map (regTask topic)).map Task.sort = regs.map Prod.snd := by
  rw [List.map_map]
  apply List.map_congr_left
  intro p _
  simp [Function.comp, regTask, mkTask, Task.sort, sortOpts, Opts.sort]

/-! ## Claim theorems -/

/-- C1: the claim says a `once` task is removed from its owning
collection after its first execution.  In the code, the removal call
`removeTask(task)` (line 86) names a function that does not exist, so
executing a `once` task raises a `ReferenceError` instead: the task is
never removed, the emit aborts, and a second emit of the same topic runs
the callback again (the spec scenario `on('once-task', cb, {once:1});
emit; emit` runs `cb` twice, not once). -/
theorem xtC1_once_reference_error :
    coreEmit 1 stC1 [.str "once-task"] =
      .err .refErrRemoveTask [⟨onceTask, .taskVal onceTask, []⟩] stC1
    ∧ coreEmit 1 ((coreEmit 1 stC1 [.str "once-task"]).state) [.str "once-task"] =
      .err .refErrRemoveTask [⟨onceTask, .taskVal onceTask, []⟩] stC1 :=
  ⟨rfl, rfl⟩

/-- C2 counterexample: with no emit-time context, the first task has no
bound `ctx` (so it resolves to its own record) and the second task has
bound `ctx = obj 7`.  Per the claim the second callback must receive
`obj 7` as `this`; the trace shows it received the *first* task's
record, because line 82 reassigns the loop's `ctx` variable. -/
theorem xtC2_counterexample :
    (coreEmit 1 stC2 [.str "t"]).trace =
      [⟨c2t1, .taskVal c2t1, []⟩, ⟨c2t2, .taskVal c2t1, []⟩]
    ∧ c2t2.ctx = .obj 7
    ∧ Val.taskVal c2t1 ≠ .obj 7 :=
  ⟨rfl, rfl, fun h => Val.noConfusion h⟩

/-- C2 amended: the execution context is resolved once per emit, not per
task: every executed callback receives the same `this` — the emit-time
context if truthy, otherwise the first sorted task's resolution (its own
bound `ctx` if truthy, else that first task's record).  Later tasks'
`ctx` fields are ignored. -/
theorem xtC2_sticky_context (fuel : Nat) (st : St) (ts : List Task) (args : List Val)
    (ctx0 : Val) (hconst : ∀ t ∈ ts, t.cb.isConst = true) :
    (emitList fuel st ts args ctx0).trace.map Event.ctx =
      List.replicate (upToHalt (sortTasks ts)).length (stickyCtx ctx0 (sortTasks ts)) := by
  rw [emitList_const fuel st ts args ctx0 hconst]
  have key : (traceOf args ctx0 (upToHalt (sortTasks ts))).map Event.ctx =
      List.replicate (upToHalt (sortTasks ts)).length (stickyCtx ctx0 (sortTasks ts)) := by
    rw [traceOf_ctx_sticky, stickyCtx_upToHalt]
  split
  · simpa [Res.trace] using key
  · simpa [Res.trace] using key

/-- C2 witness: the amended statement at the two concrete context
example tasks, with no emit-time context. -/
theorem xtC2_witness :
    (emitList 1 stEmptyS [c2t1, c2t2] [] .null).trace.map Event.ctx =
      List.replicate (upToHalt (sortTasks [c2t1, c2t2])).length
        (stickyCtx .null (sortTasks [c2t1, c2t2])) :=
  xtC2_sticky_context 1 stEmptyS [c2t1, c2t2] [] .null (by decide)

/-- C5 counterexample: a single matching task (`once:1`, callback
returning `undefined`).  Per the claim this emit must return the
empty/undefined default *without throwing*; the code instead raises the
`removeTask` `ReferenceError`. -/
theorem xtC5_counterexample :
    coreEmit 1 stC5 [.str "t"] =
      .err .refErrRemoveTask [⟨onceFalsyTask, .taskVal onceFalsyTask, []⟩] stC5 := rfl

theorem haltsErr_of_no_once_executed (l : List Task)
    (h : ∀ t ∈ upToHalt l, t.once = 0) : haltsErr l = false := by
  unfold haltsErr
  rw [List.any_eq_false]
  intro t ht
  simp [h t ht]

/-- C5 amended: provided no *executed* task has `once` set — the
executed tasks are the sorted matching tasks up to and including the
first stopping one; a truthy `once` on an executed task aborts the emit
with a `ReferenceError` — `emit` returns the last truthy value among
the executed callbacks' return values in execution order — a falsy
return never overwrites a captured truthy result — and returns the
undefined default without throwing when every executed callback returns
a falsy value or no task matches.  A `once` task behind a stopping task
is never reached and does not disturb the result. -/
theorem xtC5_last_truthy_return (fuel : Nat) (st : St) (topic : String)
    (hconst : ∀ t ∈ coreMatching st (.str topic), t.cb.isConst = true)
    (honce : ∀ t ∈ upToHalt (sortTasks (coreMatching st (.str topic))), t.once = 0) :
    coreEmit fuel st [.str topic] =
      .ok (lastTruthy .undefined (upToHalt (sortTasks (coreMatching st (.str topic)))))
        (traceOf [] .null (upToHalt (sortTasks (coreMatching st (.str topic))))) st := by
  rw [coreEmit_str fuel st topic hconst]
  simp [haltsErr_of_no_once_executed _ honce]

/-- C5 witness: the amended statement first at three tasks returning
`undefined`, `"x"` and `0` (the emit completes and returns the last
truthy value), then at a queue where a `once:1` task sits behind a
`stop:1` task — the `once` task is matching but never executed, and the
emit still completes with the stop task's truthy result. -/
theorem xtC5_witness :
    coreEmit 1 stC5w [.str "w"] =
      .ok (lastTruthy .undefined (upToHalt (sortTasks (coreMatching stC5w (.str "w")))))
        (traceOf [] .null (upToHalt (sortTasks (coreMatching stC5w (.str "w"))))) stC5w
    ∧ coreEmit 1 stC5w2 [.str "v"] =
      .ok (lastTruthy .undefined (upToHalt (sortTasks (coreMatching stC5w2 (.str "v")))))
        (traceOf [] .null (upToHalt (sortTasks (coreMatching stC5w2 (.str "v"))))) stC5w2 :=
  ⟨xtC5_last_truthy_return 1 stC5w "w" (by decide) (by decide),
   xtC5_last_truthy_return 1 stC5w2 "v" (by decide) (by decide)⟩

/-- C6: after a sequence of `on` calls registering tasks for one topic
with pairwise distinct `sort` values (on a registry with no prior task
for that topic), emitting that topic invokes every registered callback,
in strictly ascending order of their `sort` values. -/
theorem xtC6_ascending_order (fuel : Nat) (st : St) (topic : String) (regs : List (Cb × Int))
    (h0 : coreMatching st (.str topic) = [])
    (hconst : ∀ p ∈ regs, Cb.isConst p.1 = true)
    (hdist : (regs.map Prod.snd).Nodup) :
    ((coreEmit fuel (regAll st topic regs) [.str topic]).trace.map Event.task).Pairwise
      (fun a b => a.sort < b.sort)
    ∧ List.Perm ((coreEmit fuel (regAll st topic regs) [.str topic]).trace.map Event.task)
        (regs.map (regTask topic)) := by
  have hM : coreMatching (regAll st topic regs) (.str topic) = regs.map (regTask topic) :=
    coreMatching_regAll st topic regs h0
  have hconst2 : ∀ t ∈ coreMatching (regAll st topic regs) (.str topic), t.cb.isConst = true := by
    rw [hM]
    intro t ht
    rcases List.mem_map.mp ht with ⟨p, hp, rfl⟩
    simpa [regTask, mkTask, Task.cb, sortOpts, Opts.cb] using hconst p hp
  rw [coreEmit_str fuel (regAll st topic regs) topic hconst2, hM]
  have hclean : ∀ t ∈ sortTasks (regs.map (regTask topic)), t.once = 0 ∧ t.stop = 0 := by
    intro t ht
    rcases List.mem_map.mp ((sortTasks_perm _).mem_iff.mp ht) with ⟨p, _, rfl⟩
    constructor
    · simp [regTask, mkTask, Task.once, sortOpts, Opts.once]
    · simp [regTask, mkTask, Task.stop, sortOpts, Opts.stop]
  have herr : haltsErr (sortTasks (regs.map (regTask topic))) = false :=
    haltsErr_of_no_once _ (fun t ht => (hclean t ht).1)
  rw [if_neg (by rw [herr]; exact Bool.false_ne_true)]
  rw [upToHalt_of_clean _ hclean]
  simp only [Res.trace]
  rw [traceOf_tasks]
  constructor
  · apply pairwise_lt_of_nodup _ (sortTasks_sorted _)
    rw [((sortTasks_perm (regs.map (regTask topic))).map Task.sort).nodup_iff]
    rw [regTask_sort_map]
    exact hdist
  · exact sortTasks_perm _

/-- C6 witness: three registrations with sorts 5, -3 and 1 on an empty
registry — the emit invokes all three callbacks in ascending sort
order. -/
theorem xtC6_witness :
    ((coreEmit 1 (regAll stEmptyS "t" regs6) [.str "t"]).trace.map Event.task).Pairwise
      (fun a b => a.sort < b.sort)
    ∧ List.Perm ((coreEmit 1 (regAll stEmptyS "t" regs6) [.str "t"]).trace.map Event.task)
        (regs6.map (regTask "t")) :=
  xtC6_ascending_order 1 stEmptyS "t" regs6 rfl (by decide) (by decide)

/-- C7 counterexample: a task with both `stop:1` and `once:1` (and a
later task behind it).  Per the claim, iteration must halt right after
this task's invocation *with its once-removal applied*.  In the code the
removal raises the `removeTask` `ReferenceError`: the emit aborts as an
error, and the task is still in its owning collection afterwards (the
later task indeed never runs). -/
theorem xtC7_counterexample :
    coreEmit 1 stC7 [.str "t"] =
      .err .refErrRemoveTask [⟨stopOnceTask, .taskVal stopOnceTask, []⟩] stC7
    ∧ stopOnceTask.stop ≠ 0
    ∧ stopOnceTask.once ≠ 0
    ∧ stopOnceTask ∈ ((coreEmit 1 stC7 [.str "t"]).state).core := by
  refine ⟨rfl, by decide, by decide, ?_⟩
  exact List.mem_cons_self _ _

/-- C7 amended: if the first stopping task of the sorted sequence has
`stop` truthy and `once` unset (a truthy `once` instead aborts the emit
with an error), iteration halts immediately after that task's callback
invocation and no later task in the sorted sequence executes; in
particular the scenario `on('t',cb1,{sort:-1}); on('t',cb2,{sort:1,
stop:1}); on('t',cb3,{sort:2})`, `emit('t')` executes cb1 then cb2 and
cb3 never runs. -/
theorem xtC7_stop_halts (fuel : Nat) (st : St) (topic : String) (pre post : List Task)
    (tstop : Task)
    (hsort : sortTasks (coreMatching st (.str topic)) = pre ++ tstop :: post)
    (hconst : ∀ t ∈ coreMatching st (.str topic), t.cb.isConst = true)
    (hpre : ∀ t ∈ pre, t.once = 0 ∧ t.stop = 0)
    (hstop : tstop.stop ≠ 0) (honce : tstop.once = 0) :
    coreEmit fuel st [.str topic] =
      .ok (lastTruthy .undefined (pre ++ [tstop])) (traceOf [] .null (pre ++ [tstop])) st
    ∧ (coreEmit fuel st [.str topic]).trace.map Event.task = pre ++ [tstop] := by
  have hb2 : (tstop.stop != 0) = true := by rwa [bne_iff_ne]
  have hbool : (tstop.once != 0 || tstop.stop != 0) = true := by rw [hb2, Bool.or_true]
  have hupto : upToHalt (sortTasks (coreMatching st (.str topic))) = pre ++ [tstop] := by
    rw [hsort]
    exact upToHalt_split tstop post hbool pre hpre
  have herr : haltsErr (sortTasks (coreMatching st (.str topic))) = false := by
    unfold haltsErr
    rw [hupto, List.any_eq_false]
    intro t ht
    rcases List.mem_append.mp ht with h1 | h2
    · simp [(hpre t h1).1]
    · rcases List.mem_singleton.mp h2 with rfl
      simp [honce]
  rw [coreEmit_str fuel st topic hconst]
  rw [if_neg (by rw [herr]; exact Bool.false_ne_true)]
  rw [hupto]
  exact ⟨rfl, by simp only [Res.trace]; rw [traceOf_tasks]⟩

/-- C7 witness: the amended statement at the spec scenario — cb1 and cb2
execute, cb3 never runs. -/
theorem xtC7_witness :
    (coreEmit 1 stC7w [.str "t"]).trace.map Event.task = [cb1Task, cb2Task] :=
  (xtC7_stop_halts 1 stC7w "t" [cb1Task] [cb3Task] cb2Task rfl (by decide) (by decide)
    (by decide) rfl).2

/-- C3: the claim says an unknown property access returns an invoker
performing the instance's own emit with the property name pre-supplied
as the topic.  In the code, `xT.#instances[name].emit` re-enters the
Proxy `get` trap at the declared key `emit` and yields the already-bound
`xT.emit.bind(null, '$name:emit')`; the outer `.bind(prop)` only sets an
ignored `this`, so the property name is discarded: calling the invoker
emits with the invoker's *first call argument* as the topic.  Accessing
`typo` (or any other unknown name) on instance `u` and calling with
`('x')` dispatches the local `x` task and returns `"hit"`, while the
claimed behaviour (instance emit with `typo` pre-supplied) matches no
local task and returns `undefined`. -/
theorem xtC3_prop_discarded :
    proxyGet uInst "typo" = .coreTopic "$u:emit"
    ∧ proxyGet uInst "anotherUnknown" = .coreTopic "$u:emit"
    ∧ (callInvoker 5 stU (proxyGet uInst "typo") [.str "x"]).retVal = some (.str "hit")
    ∧ (callInvoker 5 stU (proxyGet uInst "typo") [.str "x"]).trace.map (fun e => e.task.topic)
        = ["$u:emit", "$u:filter", "x"]
    ∧ (instEmitRun 5 stU "u" [.str "typo", .str "x"]).retVal = some .undefined :=
  ⟨rfl, rfl, rfl, rfl, rfl⟩

theorem emitGoF_singleton (call : St → Cb → Val → List Val → Res) (st : St) (t : Task)
    (args : List Val) (ctx acc : Val) (v : Val) (st2 : St)
    (hone : t.once = 0 ∧ t.stop = 0)
    (hcb : call st t.cb
      (if truthy (resolveCtx ctx t) then resolveCtx ctx t else t.ctx) args = .ok v [] st2) :
    emitGoF call st [t] args ctx acc =
      .ok (if truthy v then v else acc)
        [⟨t, if truthy (resolveCtx ctx t) then resolveCtx ctx t else t.ctx, args⟩] st2 := by
  simp only [emitGoF, hcb]
  simp [hone.1, hone.2, appendTrace, emitGoF]

theorem coreEmit_filter_call (fuel : Nat) (st : St) (name : String) (tv : Val)
    (hf : coreMatching st (.str (featTopic name "filter")) = [filterFeatureTask name]) :
    coreEmit fuel st [.str (featTopic name "filter"), .queueRef name, tv] =
      .ok (.taskArr (defaultFilter (readQueue st name) tv))
        [⟨filterFeatureTask name, .taskVal (filterFeatureTask name), [.queueRef name, tv]⟩]
        st := by
  have step1 : coreEmit fuel st [.str (featTopic name "filter"), .queueRef name, tv] =
      emitList fuel st (coreMatching st (.str (featTopic name "filter")))
        [.queueRef name, tv] .null := rfl
  rw [step1, hf]
  have step2 : emitList fuel st [filterFeatureTask name] [.queueRef name, tv] .null =
      emitGoF (callCb fuel) st [filterFeatureTask name] [.queueRef name, tv] .null .undefined := rfl
  rw [step2]
  have hcb : callCb fuel st (filterFeatureTask name).cb
      (if truthy (resolveCtx .null (filterFeatureTask name))
        then resolveCtx .null (filterFeatureTask name) else (filterFeatureTask name).ctx)
      [.queueRef name, tv] =
      .ok (.taskArr (defaultFilter (readQueue st name) tv)) [] st := by
    cases fuel with
    | zero => rfl
    | succ f => rfl
  rw [emitGoF_singleton (callCb fuel) st (filterFeatureTask name) [.queueRef name, tv]
    .null .undefined (.taskArr (defaultFilter (readQueue st name) tv)) st ⟨rfl, rfl⟩ hcb]
  rfl

/-- C4: the instance `emit` closure, called with a topic and arguments,
first emits `$<name>:filter` on the Core Registry with the instance's
local collection and the topic as arguments (the leading recorded filter
event), takes the filtered queue that emit returns, and then runs the
core execution algorithm (`xT.#emit`) directly over that queue with the
original call arguments. -/
theorem xtC4_instance_emit_path (fuel : Nat) (st : St) (name topic : String) (args : List Val)
    (hf : coreMatching st (.str (featTopic name "filter")) = [filterFeatureTask name]) :
    instEmitRun fuel st name (.str topic :: args) =
      appendTrace [filterFeatureEvent name topic]
        (emitList fuel st (defaultFilter (readQueue st name) (.str topic)) args .null) := by
  have step1 : instEmitRun fuel st name (.str topic :: args) =
      (match coreEmit fuel st [.str (featTopic name "filter"), .queueRef name, .str topic] with
       | .err e tr st1 => .err e tr st1
       | .ok v tr st1 =>
         match resolveArr st1 v with
         | some ts => appendTrace tr (emitList fuel st1 ts args .null)
         | none => .err .typeError tr st1) := rfl
  rw [step1, coreEmit_filter_call fuel st name (.str topic) hf]
  rfl

/-- C4 witness: instance `u` (standard construction) with three local
tasks, two on topic `topic`; `u`'s emit with `('topic', 1, 2)` routes
through the `$u:filter` task and then runs the core algorithm over the
two matching local tasks with arguments `(1, 2)`. -/
theorem xtC4_witness :
    instEmitRun 2 stU4 "u" [.str "topic", .int 1, .int 2] =
      appendTrace [filterFeatureEvent "u" "topic"]
        (emitList 2 stU4 (defaultFilter (readQueue stU4 "u") (.str "topic"))
          [.int 1, .int 2] .null) :=
  xtC4_instance_emit_path 2 stU4 "u" "topic" [.int 1, .int 2] rfl

/-- C8: instance construction is idempotent per name: the first
construction stores the instance under its name; a repeated construction
with any (even different) feature table returns the stored instance
itself, leaves the storage and the registry unchanged, and only appends
the diagnostic notice to the log. -/
theorem xtC8_idempotent_construction (sys : Sys) (name : String)
    (f1 f2 : List (String × Cb)) (hfresh : sys.insts.lookup name = none) :
    (construct sys name f1).2.insts.lookup name = some (construct sys name f1).1
    ∧ (construct (construct sys name f1).2 name f2).1 = (construct sys name f1).1
    ∧ (construct (construct sys name f1).2 name f2).2 =
        ⟨(construct sys name f1).2.st, (construct sys name f1).2.insts,
          (construct sys name f1).2.log ++ ["Return existing instance"]⟩ := by
  have h1 : construct sys name f1 =
      ((⟨name, buildFeatures name f1⟩ : Inst),
        (⟨⟨(registerFeatures sys.st name (buildFeatures name f1)).core,
            (registerFeatures sys.st name (buildFeatures name f1)).locals ++ [(name, [])]⟩,
          sys.insts ++ [(name, ⟨name, buildFeatures name f1⟩)], sys.log⟩ : Sys)) := by
    unfold construct
    rw [hfresh]
  have hlook : (sys.insts ++ [(name, (⟨name, buildFeatures name f1⟩ : Inst))]).lookup name
      = some ⟨name, buildFeatures name f1⟩ :=
    lookup_append_of_none name _ sys.insts hfresh
  refine ⟨?_, ?_, ?_⟩
  · rw [h1]
    exact hlook
  · rw [h1]
    unfold construct
    dsimp only
    rw [hlook]
  · rw [h1]
    unfold construct
    dsimp only
    rw [hlook]

/-- C8 witness: constructing `u` twice from the empty state, the second
time with a different feature table — the second call returns the first
instance and changes nothing but the log. -/
theorem xtC8_witness :
    (construct (construct sysEmpty "u" []).2 "u" f8b).1 = (construct sysEmpty "u" []).1
    ∧ (construct (construct sysEmpty "u" []).2 "u" f8b).2 =
        ⟨(construct sysEmpty "u" []).2.st, (construct sysEmpty "u" []).2.insts,
          (construct sysEmpty "u" []).2.log ++ ["Return existing instance"]⟩ :=
  ⟨(xtC8_idempotent_construction sysEmpty "u" [] f8b rfl).2.1,
   (xtC8_idempotent_construction sysEmpty "u" [] f8b rfl).2.2⟩

/-- C9: in the effective feature table, a supplied feature overrides the
default `filter`, but the built-ins `queue`, `on` and `emit` always win
over same-named supplied features, because they are written after the
spread of the caller's features. -/
theorem xtC9_feature_merge (name : String) (s : List (String × Cb))
    (hnd : (s.map Prod.fst).Nodup) :
    (buildFeatures name s).lookup "queue" = some (.instQueue name)
    ∧ (buildFeatures name s).lookup "on" = some (.instOn name)
    ∧ (buildFeatures name s).lookup "emit" = some (.instEmit name)
    ∧ (buildFeatures name s).lookup "filter" =
        some ((s.lookup "filter").getD .filterDefault) := by
  unfold buildFeatures
  refine ⟨?_, ?_, ?_, ?_⟩
  · rw [lookup_upsert_ne "emit" "queue" _ (by decide) _]
    rw [lookup_upsert_ne "on" "queue" _ (by decide) _]
    exact lookup_upsert_self "queue" _ _
  · rw [lookup_upsert_ne "emit" "on" _ (by decide) _]
    exact lookup_upsert_self "on" _ _
  · exact lookup_upsert_self "emit" _ _
  · rw [lookup_upsert_ne "emit" "filter" _ (by decide) _]
    rw [lookup_upsert_ne "on" "filter" _ (by decide) _]
    rw [lookup_upsert_ne "queue" "filter" _ (by decide) _]
    cases hl : s.lookup "filter" with
    | some v =>
      rw [lookup_foldl_upsert_of_some "filter" v s _ hnd hl]
      rfl
    | none =>
      rw [lookup_foldl_upsert_of_none "filter" s _ hl]
      rfl

/-- C9 witness: a supplied table that overrides `filter` and tries to
override `queue`: the effective table keeps the supplied `filter` but
the built-in `queue`, `on`, `emit`. -/
theorem xtC9_witness :
    (buildFeatures "u" s9).lookup "queue" = some (.instQueue "u")
    ∧ (buildFeatures "u" s9).lookup "on" = some (.instOn "u")
    ∧ (buildFeatures "u" s9).lookup "emit" = some (.instEmit "u")
    ∧ (buildFeatures "u" s9).lookup "filter" =
        some ((s9.lookup "filter").getD .filterDefault) :=
  xtC9_feature_merge "u" s9 (by decide)

/-- C10: because `opts` is spread last over the defaults and the
positional fields, an options object containing a `topic` key silently
replaces the positional topic in the stored task, and one containing a
`cb` key silently replaces the positional callback: `on('a', f,
{topic:'b'})` appends a task that matches topic `b` — an emit of `a`
invokes nothing while an emit of `b` invokes `f` — and `on('a', f,
{cb: g})` appends a task whose callback is `g`, so an emit of `a` runs
`g`, not `f`. -/
theorem xtC10_opts_override_positional :
    (∀ (st : St) (topic : String) (cb : Cb) (o : Opts) (t2 : String),
        o.topic = some t2 → ((xtOn st topic cb o).1).topic = t2)
    ∧ (∀ (st : St) (topic : String) (cb : Cb) (o : Opts) (c2 : Cb),
        o.cb = some c2 → ((xtOn st topic cb o).1).cb = c2)
    ∧ ((xtOn ⟨[], []⟩ "a" (.const 0 (.str "ran")) onBOpts).1).topic = "b"
    ∧ coreEmit 1 stC10 [.str "a"] = .ok .undefined [] stC10
    ∧ (coreEmit 1 stC10 [.str "b"]).trace.map (fun e => e.task.topic) = ["b"]
    ∧ ((xtOn ⟨[], []⟩ "a" (.const 0 (.str "f-ran")) cbOpts).1).cb = .const 8 (.str "g-ran")
    ∧ (coreEmit 1 stC10b [.str "a"]).retVal = some (.str "g-ran") := by
  refine ⟨?_, ?_, rfl, rfl, rfl, rfl, rfl⟩
  · intro st topic cb o t2 ho
    simp [xtOn, pushTask, mkTask, Task.topic, ho]
  · intro st topic cb o c2 ho
    simp [xtOn, pushTask, mkTask, Task.cb, ho]

/-- C10 witness: both general override statements at concrete calls:
`on('z', g, {topic:'w'})` stores a task whose topic is `w`, and
`on('z', g, {cb: h})` stores a task whose callback is `h`. -/
theorem xtC10_witness :
    ((xtOn ⟨[], []⟩ "z" (.const 7 .undefined) (.mk (some "w") none none none none none)).1).topic
      = "w"
    ∧ ((xtOn ⟨[], []⟩ "z" (.const 7 .undefined)
        (.mk none (some (.const 9 .undefined)) none none none none)).1).cb
      = .const 9 .undefined :=
  ⟨xtC10_opts_override_positional.1 ⟨[], []⟩ "z" (.const 7 .undefined)
    (.mk (some "w") none none none none none) "w" rfl,
   xtC10_opts_override_positional.2.1 ⟨[], []⟩ "z" (.const 7 .undefined)
    (.mk none (some (.const 9 .undefined)) none none none none) (.const 9 .undefined) rfl⟩
